import Mathlib

/-!
Verification development for the motor-analysis repository.

This file gives a shallow embedding of the parts of models.py, simulation.py
and simple.py that the checked properties are about, and proves or refutes
each property against that embedding.

Modelling conventions:
- Python floats are modelled as real numbers; float arithmetic questions
  (rounding, NaN, infinity) are outside the model, and divisions whose Python
  value would be NaN are guarded by explicit hypotheses where they matter.
- Harmonic coefficient dicts (index to (amplitude, offset)) are association
  lists in insertion order; dict lookup is List.lookup on the key.
- scipy optimizers are external services: each call site takes the outcome of
  the call as an argument (some x when the optimizer converged to x, none when
  it reported failure), exactly as wide as the information the source reads
  from the result object.
- Python exceptions (ValueError, KeyError, AttributeError, AssertionError)
  are Except.error values carrying the message.
- The cached unit quantities a SimpleController computes at construction time
  by numerical quadrature (average_circle, rms_circle, max_circle over the
  commanded waveform) are the fields of the SimpleController state here; the
  quadrature itself is an external numerical service, and operating_point
  only ever reads these cached numbers.
-/

open Real

/-- Minimum of a list of reals, 0 for the empty list.  Models the Python
builtin min and numpy.nanmin over a nonempty array of ordinary, non-NaN
values (real numbers have no NaN, so nanmin is plain min). -/
def listMin : List ℝ → ℝ
  | [] => 0
  | a :: t => t.foldl min a

/-- Harmonic coefficient set: the Python dict from harmonic index a to the
pair (b, c) standing for the term b * cos(a * theta + c), modelled as an
association list in iteration order. -/
abbrev Coeff := List (ℕ × ℝ × ℝ)

/-- models._offset_coeff: adds the constant -pi/2 - coeff[1][1] to the offset
of every harmonic, so that harmonic 1 ends at offset exactly -pi/2.  Returns
none when the set has no harmonic 1, where Python raises KeyError on the
coeff[1] lookup. -/
noncomputable def _offset_coeff (coeff : Coeff) : Option Coeff :=
  match coeff.lookup 1 with
  | none => none
  | some v => some (coeff.map (fun p => (p.1, p.2.1, p.2.2 + (-(π / 2) - v.2))))

/-- models.CosSum: the stored phase and line-to-line coefficient sets.  The
derived callables phase and line_line are CosSum.make_function applied to the
respective stored set. -/
structure CosSum where
  phase_coeff : Coeff
  line_line_coeff : Coeff

/-- models.CosSum.make_function: theta maps to the sum over the set of
b * cos(a * theta + c). -/
noncomputable def CosSum.make_function (coeff : Coeff) (theta : ℝ) : ℝ :=
  (coeff.map (fun p => p.2.1 * Real.cos ((p.1 : ℝ) * theta + p.2.2))).sum

/-- The line_line branch of models.CosSum.__init__: canonicalize the given
line-to-line set, then derive the phase set by dividing each amplitude by
sqrt(3), offsets unchanged. -/
noncomputable def CosSum.ofLineLine (ll : Coeff) : Except String CosSum :=
  match _offset_coeff ll with
  | none => Except.error "KeyError: 1"
  | some llc =>
    Except.ok ⟨llc.map (fun q => (q.1, q.2.1 / Real.sqrt 3, q.2.2)), llc⟩

/-- models.CosSum.__init__ with arguments in source order (line_line, phase).
The source runs the phase branch first (canonicalize, then derive line-line
amplitudes by multiplying with sqrt(3)) and then, when line_line is also
given, runs the line_line branch which overwrites both fields; there is no
error when both are given.  When neither is given, neither field was ever
assigned and Python fails with AttributeError when line 40 reads
self._phase_coeff. -/
noncomputable def CosSum.init (line_line phase : Option Coeff) :
    Except String CosSum :=
  match phase with
  | some p =>
    match _offset_coeff p with
    | none => Except.error "KeyError: 1"
    | some pc =>
      match line_line with
      | none =>
        Except.ok ⟨pc, pc.map (fun q => (q.1, q.2.1 * Real.sqrt 3, q.2.2))⟩
      | some ll => CosSum.ofLineLine ll
  | none =>
    match line_line with
    | none => Except.error "AttributeError: _phase_coeff"
    | some ll => CosSum.ofLineLine ll

/-- models.Motor, restricted to the fields the checked properties read. -/
structure Motor where
  resistance : ℝ
  self_inductance : ℝ
  f : CosSum

/-- models.Motor.__init__ over the electrical arguments, in source order.
Each quantity is taken from the phase form when that is given (even when the
line-to-line form is also given: the source is an if/elif chain, so double
specification is accepted silently with phase priority), from the
line-to-line form (halved) when only that is given, and is a ValueError when
neither is given.  The advertised_* fields do not interact with the checked
properties and are omitted; the self-checks at models.py lines 137 and 138
re-canonicalize an already canonical set and never fire (theorem
offset_coeff_idempotent below), so they are omitted as well. -/
noncomputable def Motor.init (phase_resistance line_line_resistance : Option ℝ)
    (phase_f_coeff line_line_f_coeff : Option Coeff)
    (phase_self_inductance line_line_self_inductance : Option ℝ) :
    Except String Motor :=
  let r : Option ℝ :=
    match phase_resistance with
    | some x => some x
    | none =>
      match line_line_resistance with
      | some x => some (x / 2)
      | none => none
  match r with
  | none => Except.error "Must specify the resistance"
  | some resistance =>
    let si : Option ℝ :=
      match phase_self_inductance with
      | some x => some x
      | none =>
        match line_line_self_inductance with
        | some x => some (x / 2)
        | none => none
    match si with
    | none => Except.error "Must specify the inductance"
    | some self_inductance =>
      match phase_f_coeff with
      | some pc =>
        (CosSum.init none (some pc)).map (fun cs => ⟨resistance, self_inductance, cs⟩)
      | none =>
        match line_line_f_coeff with
        | some llc =>
          (CosSum.init (some llc) none).map (fun cs => ⟨resistance, self_inductance, cs⟩)
        | none => Except.error "Must specify the flux linkage"

/-- models.Waveform: the vectorized function together with the minimum the
constructor computed and stored in self._min. -/
structure Waveform where
  f : ℝ → ℝ
  min : ℝ

/-- The minimum models.Waveform.__init__ stores: the smallest of the coarse
12-point grid minimum over numpy.linspace(0, 2*pi, 12) (points 2*pi*i/11),
f at the bounded local minimizer, and f at the differential-evolution
minimizer. -/
noncomputable def waveform_min (f : ℝ → ℝ) (local_x global_x : ℝ) : ℝ :=
  listMin [listMin ((List.range 12).map (fun i => f (π * 2 * (i : ℝ) / 11))),
           f local_x, f global_x]

/-- models.Waveform.__init__.  The two scipy optimizer calls are external and
enter as their outcomes: some x when the optimizer converged to the point x,
none when it reported failure, in which case the corresponding assert on the
success flag raises AssertionError. -/
noncomputable def Waveform.init (scalar_f : ℝ → ℝ)
    (continuous_min global_min : Option ℝ) : Except String Waveform :=
  match continuous_min with
  | none => Except.error "AssertionError: continuous_min.success"
  | some lx =>
    match global_min with
    | none => Except.error "AssertionError: global_min.success"
    | some gx => Except.ok ⟨scalar_f, waveform_min scalar_f lx gx⟩

/-- models.Waveform.max: the property returns the negation of the stored
minimum; no separate search for the maximum happens. -/
noncomputable def Waveform.max (w : Waveform) : ℝ := -w.min

/-- Insertion of one key into an ascending list, for sortAsc. -/
def insertAsc (x : ℕ) : List ℕ → List ℕ
  | [] => [x]
  | y :: t => if x ≤ y then x :: y :: t else y :: insertAsc x t

/-- Python sorted() on a list of keys, ascending. -/
def sortAsc (l : List ℕ) : List ℕ := l.foldr insertAsc []

/-- models.make_sin_constant.  The first assert compares coeff with
_offset_coeff applied to coeff; the lookup inside _offset_coeff raises
KeyError before the comparison when harmonic 1 is absent.  Then the length
assert, then the amplitude of every harmonic except the smallest key (the
entries of sorted(keys) after the first) is negated and the resulting cosine
sum is wrapped into a Waveform.  The Waveform wrapper runs external
optimizers, so this embedding returns the generated scalar function itself. -/
noncomputable def make_sin_constant (coeff : Coeff) : Except String (ℝ → ℝ) :=
  match _offset_coeff coeff with
  | none => Except.error "KeyError: 1"
  | some oc =>
    if coeff = oc then
      if coeff.length ≤ 2 then
        let rest := (sortAsc (coeff.map Prod.fst)).drop 1
        Except.ok (CosSum.make_function
          (coeff.map (fun p => if p.1 ∈ rest then (p.1, -p.2.1, p.2.2) else p)))
      else Except.error "AssertionError: len"
    else Except.error "AssertionError: offset"

/-- simulation.max_circle.  With n = 200, the sample angles are
numpy.linspace(0, 2*pi, n), that is theta_i = 2*pi*i/(n-1) for i below n, and
epsilon = 2*pi/n/2.  The call to scipy.optimize.minimize of -f over the
window from theta - epsilon to theta + epsilon with start theta is external
and enters as opt lo hi x0 (some x when it converged to x, none on failure).
The results array is created with numpy.empty and the index advances for
every window, so a window whose optimizer failed keeps the uninitialized
entry; that arbitrary memory content enters as junk i.  The function then
returns f applied to numpy.nanmin(results), the numerically smallest entry
of the array of candidate angles. -/
noncomputable def max_circle (f : ℝ → ℝ) (opt : ℝ → ℝ → ℝ → Option ℝ)
    (junk : ℕ → ℝ) : ℝ :=
  let results := (List.range 200).map (fun (i : ℕ) =>
    (opt (π * 2 * (i : ℝ) / 199 - π * 2 / 200 / 2)
         (π * 2 * (i : ℝ) / 199 + π * 2 / 200 / 2)
         (π * 2 * (i : ℝ) / 199)).getD (junk i))
  f (listMin results)

/-- simulation._differentiate.  The source evaluates
values = f((theta + epsilon, theta - epsilon)) and returns
(values[1] - values[0]) / (epsilon * 2), that is
(f(theta - epsilon) - f(theta + epsilon)) / (epsilon * 2). -/
noncomputable def _differentiate (f : ℝ → ℝ) (theta : ℝ) : ℝ :=
  (f (theta - π * 2 / 10000) - f (theta + π * 2 / 10000)) / (π * 2 / 10000 * 2)

/-- simulation.differentiate: numpy.vectorize of _differentiate over theta
with f excluded from broadcasting, one output value per input angle. -/
noncomputable def differentiate (f : ℝ → ℝ) (thetas : List ℝ) : List ℝ :=
  thetas.map (_differentiate f)

/-- simulation.OperatingPoint: the three stored constructor fields. -/
structure OperatingPoint where
  omega : ℝ
  motor_power : ℝ
  torque : ℝ

/-- simulation.OperatingPoint.output_power: omega * torque. -/
noncomputable def OperatingPoint.output_power (p : OperatingPoint) : ℝ :=
  p.omega * p.torque

/-- simulation.OperatingPoint.input_power: motor_power + output_power. -/
noncomputable def OperatingPoint.input_power (p : OperatingPoint) : ℝ :=
  p.motor_power + p.output_power

/-- simulation.OperatingPoint.input_current at a given input voltage. -/
noncomputable def OperatingPoint.input_current (p : OperatingPoint)
    (input_voltage : ℝ) : ℝ :=
  p.input_power / input_voltage

/-- simulation.OperatingPoint.efficiency exactly as the source computes it:
output_power divided by the sum of input_power and output_power. -/
noncomputable def OperatingPoint.efficiency (p : OperatingPoint) : ℝ :=
  p.output_power / (p.input_power + p.output_power)

/-- simple.SimpleController: the unit quantities cached by __init__.  Each
field holds the result of the numerical quadrature or windowed maximization
named in simple.py lines 24 to 57; operating_point reads only these cached
numbers, so they form the controller state of the embedding. -/
structure SimpleController where
  resistance : ℝ
  unit_phase_average_torque : ℝ
  unit_total_rms_torque : ℝ
  unit_phase_rms_current : ℝ
  unit_total_rms_current : ℝ
  unit_phase_average_current : ℝ
  max_speed : ℝ
  unit_voltage : ℝ

/-- Modelled from the spec: the result record of the operating-point solver.
simple.py line 106 constructs simulation.OperatingPoint with exactly these
keyword arguments, but the OperatingPoint variant accepting them is not among
the repository files (simulation.py holds an older three-field variant), so
the record of the passed values stands in for the constructed object.  The
motor_power, input_power and output_power the spec names are the rms_* fields
here. -/
structure OperatingPointResult where
  omega : ℝ
  rms_motor_power : ℝ
  rms_output_power : ℝ
  rms_input_power : ℝ
  average_motor_power : ℝ
  torque : ℝ

/-- simple.py line 77: W/A burned as heat for all phases, computed as the
square of the cached total RMS current times the resistance. -/
noncomputable def unit_rms_electrical_power (c : SimpleController) : ℝ :=
  c.unit_total_rms_current ^ 2 * c.resistance

/-- simple.py line 80: W/A turned into torque for all phases, computed as the
cached total RMS torque times omega. -/
noncomputable def unit_rms_mechanical_power (c : SimpleController)
    (omega : ℝ) : ℝ :=
  c.unit_total_rms_torque * omega

/-- simple.py lines 86 to 89: the scale bound derived from max_input_power by
the quadratic formula, written exactly as the source writes it. -/
noncomputable def input_power_scale (c : SimpleController)
    (omega max_input_power : ℝ) : ℝ :=
  (-(unit_rms_mechanical_power c omega) +
      Real.sqrt ((unit_rms_mechanical_power c omega) ^ 2 -
        4 * unit_rms_electrical_power c * (-max_input_power))) /
    (2 * unit_rms_electrical_power c)

/-- Follows the spec wording for the input-power quadratic: the spec says the
coefficient of k squared is unit_rms_current squared times resistance times 3,
where unit_rms_current is the quantity the spec divides max_motor_current by
(the per-phase RMS current of the source). -/
noncomputable def unit_rms_electrical_power_spec (c : SimpleController) : ℝ :=
  c.unit_phase_rms_current ^ 2 * c.resistance * 3

/-- Follows the spec wording for the input-power quadratic: the spec says the
coefficient of k is unit_average_torque times omega, where unit_average_torque
is the quantity the spec divides max_torque by (three times the per-phase
average torque of the source). -/
noncomputable def unit_rms_mechanical_power_spec (c : SimpleController)
    (omega : ℝ) : ℝ :=
  (c.unit_phase_average_torque * 3) * omega

/-- The scale_limits list simple.operating_point accumulates before the
voltage branch, in source order: torque bound, current bound, input-power
bound, each present exactly when its limit argument is supplied. -/
noncomputable def base_scale_limits (c : SimpleController) (omega : ℝ)
    (max_torque max_motor_current max_input_power : Option ℝ) : List ℝ :=
  (match max_torque with
   | some t => [t / (c.unit_phase_average_torque * 3)]
   | none => []) ++
  (match max_motor_current with
   | some i => [i / c.unit_phase_rms_current]
   | none => []) ++
  (match max_input_power with
   | some p => [input_power_scale c omega p]
   | none => [])

/-- The tail of simple.operating_point from the assert on scale_limits being
nonempty: final_scale is numpy.nanmin of the list, and the result record
holds the values passed to the OperatingPoint constructor at line 106. -/
noncomputable def finish_operating_point (c : SimpleController) (omega : ℝ)
    (scale_limits : List ℝ) : Except String OperatingPointResult :=
  if scale_limits = [] then
    Except.error "AssertionError: Need to specify at least one limit"
  else
    let final_scale := listMin scale_limits
    let rms_output_power := unit_rms_mechanical_power c omega * final_scale
    Except.ok
      { omega := omega
        rms_motor_power :=
          (c.unit_phase_rms_current * final_scale) ^ 2 * c.resistance * 3
        rms_output_power := rms_output_power
        rms_input_power :=
          rms_output_power + unit_rms_electrical_power c * final_scale ^ 2
        average_motor_power :=
          (c.unit_phase_average_current * final_scale) ^ 2 * c.resistance * 3
        torque := c.unit_phase_average_torque * final_scale * 3 }

/-- simple.SimpleController.operating_point.  The voltage branch asserts that
the back-EMF omega / max_speed does not exceed max_voltage (AssertionError
otherwise, braking unsupported) and appends the voltage headroom bound; the
remaining branches are base_scale_limits and finish_operating_point. -/
noncomputable def SimpleController.operating_point (c : SimpleController)
    (omega : ℝ)
    (max_torque max_motor_current max_input_power max_voltage : Option ℝ) :
    Except String OperatingPointResult :=
  let base := base_scale_limits c omega max_torque max_motor_current max_input_power
  match max_voltage with
  | none => finish_operating_point c omega base
  | some v =>
    if omega / c.max_speed ≤ v then
      finish_operating_point c omega
        (base ++ [(v - omega / c.max_speed) / c.unit_voltage])
    else Except.error "AssertionError: braking not supported yet"

/-- Concrete periodic test function for the max_circle property: bump theta is
(1 - cos theta) / 2, periodic with period 2*pi, increasing from 0 at 0 to its
maximum 1 at pi and symmetric about pi. -/
noncomputable def bump (theta : ℝ) : ℝ := (1 - Real.cos theta) / 2

/-- An exact bounded local maximizer of bump: on a window left of pi the
maximum of bump sits at the upper bound, on a window right of pi at the lower
bound, and on a window containing pi at pi itself.  It converges on every
window. -/
noncomputable def bumpOpt (lo hi _x0 : ℝ) : Option ℝ :=
  if hi ≤ π then some hi else if π ≤ lo then some lo else some π

/-- Folding min over a list starting from a lower bound of the list gives the
start back. -/
theorem foldl_min_eq_self (a : ℝ) (t : List ℝ) (h : ∀ x ∈ t, a ≤ x) :
    t.foldl min a = a := by
  induction t generalizing a with
  | nil => rfl
  | cons x t ih =>
    have hax : min a x = a := min_eq_left (h x (List.mem_cons_self x t))
    simpa [List.foldl_cons, hax] using ih a (fun y hy => h y (List.mem_cons_of_mem x hy))

/-- listMin of a range-indexed map whose first entry is a lower bound of all
entries is that first entry. -/
theorem listMin_map_range (g : ℕ → ℝ) (n : ℕ) (hn : 0 < n)
    (h : ∀ i, g 0 ≤ g i) : listMin ((List.range n).map g) = g 0 := by
  obtain ⟨m, rfl⟩ : ∃ m, n = m + 1 := ⟨n - 1, (Nat.succ_pred_eq_of_pos hn).symm⟩
  rw [List.range_succ_eq_map, List.map_cons, List.map_map]
  show ((List.range m).map (g ∘ Nat.succ)).foldl min (g 0) = g 0
  apply foldl_min_eq_self
  intro x hx
  obtain ⟨j, _, rfl⟩ := List.mem_map.mp hx
  exact h _

/-- Looking a key up after shifting every offset by d finds the shifted value
of the original lookup. -/
theorem lookup_map_shift (l : Coeff) (k : ℕ) (d : ℝ) :
    (l.map (fun p => (p.1, p.2.1, p.2.2 + d))).lookup k
      = (l.lookup k).map (fun v => (v.1, v.2 + d)) := by
  induction l with
  | nil => simp [List.lookup]
  | cons p t ih =>
    by_cases h : k = p.1
    · simp [List.lookup, h]
    · have hb : (k == p.1) = false := beq_false_of_ne h
      simp [List.lookup, hb, ih]

/-- Looking a key up after scaling every amplitude by s finds the scaled value
of the original lookup. -/
theorem lookup_map_scale (l : Coeff) (k : ℕ) (s : ℝ) :
    (l.map (fun p => (p.1, p.2.1 * s, p.2.2))).lookup k
      = (l.lookup k).map (fun v => (v.1 * s, v.2)) := by
  induction l with
  | nil => simp [List.lookup]
  | cons p t ih =>
    by_cases h : k = p.1
    · simp [List.lookup, h]
    · have hb : (k == p.1) = false := beq_false_of_ne h
      simp [List.lookup, hb, ih]

/-- Shifting every offset by zero is the identity on coefficient sets. -/
theorem map_shift_zero (l : Coeff) :
    (l.map (fun p => (p.1, p.2.1, p.2.2 + 0))) = l := by
  simp

/-- The canonicalization pass is idempotent: re-canonicalizing the output of
_offset_coeff changes nothing, so the self-checks at models.py lines 137 and
138 always pass. -/
theorem offset_coeff_idempotent (c oc : Coeff) (h : _offset_coeff c = some oc) :
    _offset_coeff oc = some oc := by
  rcases hl : c.lookup 1 with _ | v
  · simp [_offset_coeff, hl] at h
  · have hoc : oc = c.map (fun p => (p.1, p.2.1, p.2.2 + (-(π / 2) - v.2))) := by
      simpa [_offset_coeff, hl] using h.symm
    have hlk : oc.lookup 1 = some (v.1, v.2 + (-(π / 2) - v.2)) := by
      rw [hoc, lookup_map_shift, hl]
      rfl
    have hz : -(π / 2) - (v.2 + (-(π / 2) - v.2)) = 0 := by ring
    rw [_offset_coeff, hlk]
    simp only [hz]
    rw [map_shift_zero, hoc]

/-- C2: simulation._differentiate computes the NEGATED central difference.
At the identity function and theta = 0 the source returns -1, while the
central finite difference (f(theta+eps) - f(theta-eps)) / (2*eps) with
eps = 2*pi/10000 equals 1 there; the vectorized wrapper maps the same negated
value over the input angles, one output per angle. -/
theorem differentiate_sign_flipped :
    _differentiate (fun x => x) 0 = -1
    ∧ differentiate (fun x => x) [0] = [-1]
    ∧ ((fun x : ℝ => x) (0 + π * 2 / 10000) - (fun x : ℝ => x) (0 - π * 2 / 10000)) /
        (2 * (π * 2 / 10000)) = 1 := by
  have hne : (π * 2 / 10000 : ℝ) ≠ 0 := by positivity
  refine ⟨?_, ?_, ?_⟩
  · show (0 - π * 2 / 10000 - (0 + π * 2 / 10000)) / (π * 2 / 10000 * 2) = -1
    rw [div_eq_iff (by positivity : (π * 2 / 10000 * 2 : ℝ) ≠ 0)]
    ring
  · show [(0 - π * 2 / 10000 - (0 + π * 2 / 10000)) / (π * 2 / 10000 * 2)] = [-1]
    have hval : (0 - π * 2 / 10000 - (0 + π * 2 / 10000)) / (π * 2 / 10000 * 2) = (-1 : ℝ) := by
      rw [div_eq_iff (by positivity : (π * 2 / 10000 * 2 : ℝ) ≠ 0)]
      ring
    rw [hval]
  · show (0 + π * 2 / 10000 - (0 - π * 2 / 10000)) / (2 * (π * 2 / 10000)) = 1
    rw [div_eq_iff (by positivity : (2 * (π * 2 / 10000) : ℝ) ≠ 0)]
    ring

/-- C4: simulation.OperatingPoint.efficiency divides output_power by
input_power + output_power, although input_power already contains
output_power.  At omega = 1, motor_power = 1, torque = 1 the source returns
1/3 while output_power / input_power is 1/2. -/
theorem efficiency_double_counts_output :
    (OperatingPoint.mk 1 1 1).efficiency = 1 / 3
    ∧ (OperatingPoint.mk 1 1 1).output_power / (OperatingPoint.mk 1 1 1).input_power
        = 1 / 2 := by
  constructor
  · show (1 * 1 : ℝ) / (1 + 1 * 1 + 1 * 1) = 1 / 3
    norm_num
  · show (1 * 1 : ℝ) / (1 + 1 * 1) = 1 / 2
    norm_num

/-- C9: for every successfully constructed Waveform, the max property is
exactly the negation of the stored minimum, which is the smallest of the
three search results; no independent search for the maximum happens. -/
theorem waveform_max_is_neg_min (f : ℝ → ℝ) (lx gx : ℝ) (w : Waveform)
    (h : Waveform.init f (some lx) (some gx) = Except.ok w) :
    w.max = -w.min ∧ w.min = waveform_min f lx gx := by
  have h2 : Except.ok ⟨f, waveform_min f lx gx⟩ = Except.ok w := h
  obtain rfl := Except.ok.inj h2
  exact ⟨rfl, rfl⟩

/-- Witness for waveform_max_is_neg_min at the zero function with both
optimizers converging to 0. -/
theorem waveform_max_is_neg_min_witness :
    (Waveform.mk (fun _ => (0:ℝ)) (waveform_min (fun _ => (0:ℝ)) 0 0)).max
        = -(Waveform.mk (fun _ => (0:ℝ)) (waveform_min (fun _ => (0:ℝ)) 0 0)).min
    ∧ (Waveform.mk (fun _ => (0:ℝ)) (waveform_min (fun _ => (0:ℝ)) 0 0)).min
        = waveform_min (fun _ => (0:ℝ)) 0 0 :=
  waveform_max_is_neg_min (fun _ => (0:ℝ)) 0 0 _ rfl

/-- C10: every construction path through _offset_coeff requires harmonic 1:
when the coefficient set has no key 1, _offset_coeff signals the KeyError,
and CosSum construction from either side, make_sin_constant, and Motor
construction with that flux set all fail instead of returning an object. -/
theorem construction_requires_harmonic_one (c : Coeff) (h : c.lookup 1 = none) :
    _offset_coeff c = none
    ∧ (∀ cs, CosSum.init none (some c) ≠ Except.ok cs)
    ∧ (∀ cs, CosSum.init (some c) none ≠ Except.ok cs)
    ∧ (∀ g, make_sin_constant c ≠ Except.ok g)
    ∧ (∀ r L m, Motor.init (some r) none (some c) none (some L) none ≠ Except.ok m) := by
  have hoc : _offset_coeff c = none := by simp [_offset_coeff, h]
  refine ⟨hoc, ?_, ?_, ?_, ?_⟩
  · intro cs
    simp [CosSum.init, hoc]
  · intro cs
    simp [CosSum.init, CosSum.ofLineLine, hoc]
  · intro g
    simp [make_sin_constant, hoc]
  · intro r L m
    simp [Motor.init, CosSum.init, hoc, Except.map]

/-- Witness for construction_requires_harmonic_one at a set holding only
harmonic 5. -/
theorem construction_requires_harmonic_one_witness :
    _offset_coeff [((5:ℕ), ((1:ℝ), (0:ℝ)))] = none
    ∧ (∀ cs, CosSum.init none (some [((5:ℕ), ((1:ℝ), (0:ℝ)))]) ≠ Except.ok cs)
    ∧ (∀ cs, CosSum.init (some [((5:ℕ), ((1:ℝ), (0:ℝ)))]) none ≠ Except.ok cs)
    ∧ (∀ g, make_sin_constant [((5:ℕ), ((1:ℝ), (0:ℝ)))] ≠ Except.ok g)
    ∧ (∀ r L m, Motor.init (some r) none (some [((5:ℕ), ((1:ℝ), (0:ℝ)))]) none
        (some L) none ≠ Except.ok m) :=
  construction_requires_harmonic_one [((5:ℕ), ((1:ℝ), (0:ℝ)))] rfl

/-- C3 (amended): the scale bound operating_point derives from
max_input_power is the unique nonnegative root of the quadratic the source
actually builds, whose coefficients are unit_rms_electrical_power =
unit_total_rms_current^2 * resistance (no factor 3) and
unit_rms_mechanical_power = unit_total_rms_torque * omega (total RMS torque,
not average torque). -/
theorem input_power_scale_positive_root (c : SimpleController) (omega P : ℝ)
    (he : 0 < unit_rms_electrical_power c)
    (hm : 0 ≤ unit_rms_mechanical_power c omega) (hP : 0 ≤ P) :
    unit_rms_electrical_power c * input_power_scale c omega P ^ 2
        + unit_rms_mechanical_power c omega * input_power_scale c omega P - P = 0
    ∧ 0 ≤ input_power_scale c omega P
    ∧ ∀ k, 0 ≤ k →
        unit_rms_electrical_power c * k ^ 2
          + unit_rms_mechanical_power c omega * k - P = 0 →
        k = input_power_scale c omega P := by
  set e := unit_rms_electrical_power c with hedef
  set m := unit_rms_mechanical_power c omega with hmdef
  have hK : input_power_scale c omega P
      = (-m + Real.sqrt (m ^ 2 - 4 * e * (-P))) / (2 * e) := rfl
  rw [hK]
  have hmeq : m ^ 2 - 4 * e * (-P) = m ^ 2 + 4 * e * P := by ring
  rw [hmeq]
  have hD : (0:ℝ) ≤ m ^ 2 + 4 * e * P := by nlinarith [sq_nonneg m]
  have hs : Real.sqrt (m ^ 2 + 4 * e * P) ^ 2 = m ^ 2 + 4 * e * P := Real.sq_sqrt hD
  have hne : (2 * e) ≠ 0 := by positivity
  have hroot : e * ((-m + Real.sqrt (m ^ 2 + 4 * e * P)) / (2 * e)) ^ 2
      + m * ((-m + Real.sqrt (m ^ 2 + 4 * e * P)) / (2 * e)) - P = 0 := by
    field_simp
    nlinarith [hs]
  have habs : |m| ≤ Real.sqrt (m ^ 2 + 4 * e * P) := by
    calc |m| = Real.sqrt (m ^ 2) := (Real.sqrt_sq_eq_abs m).symm
    _ ≤ _ := Real.sqrt_le_sqrt (by nlinarith)
  have hmle : m ≤ Real.sqrt (m ^ 2 + 4 * e * P) := le_trans (le_abs_self m) habs
  have hnonneg : 0 ≤ (-m + Real.sqrt (m ^ 2 + 4 * e * P)) / (2 * e) := by
    have h3 : 0 ≤ -m + Real.sqrt (m ^ 2 + 4 * e * P) := by linarith
    positivity
  refine ⟨hroot, hnonneg, ?_⟩
  intro k hk hkroot
  have hfac : (k - (-m + Real.sqrt (m ^ 2 + 4 * e * P)) / (2 * e))
      * (e * (k + (-m + Real.sqrt (m ^ 2 + 4 * e * P)) / (2 * e)) + m) = 0 := by
    have hexp : (k - (-m + Real.sqrt (m ^ 2 + 4 * e * P)) / (2 * e))
        * (e * (k + (-m + Real.sqrt (m ^ 2 + 4 * e * P)) / (2 * e)) + m)
        = (e * k ^ 2 + m * k - P)
          - (e * ((-m + Real.sqrt (m ^ 2 + 4 * e * P)) / (2 * e)) ^ 2
             + m * ((-m + Real.sqrt (m ^ 2 + 4 * e * P)) / (2 * e)) - P) := by
      field_simp
      ring
    rw [hexp, hkroot, hroot]
    ring
  rcases mul_eq_zero.mp hfac with hzero | hzero
  · linarith
  · have h4 : e * (k + (-m + Real.sqrt (m ^ 2 + 4 * e * P)) / (2 * e)) = -m := by
      linarith
    have h5 : 0 ≤ e * (k + (-m + Real.sqrt (m ^ 2 + 4 * e * P)) / (2 * e)) :=
      mul_nonneg he.le (by linarith)
    have h7 : e * (k + (-m + Real.sqrt (m ^ 2 + 4 * e * P)) / (2 * e)) = 0 :=
      le_antisymm (by linarith) h5
    have h8 : k + (-m + Real.sqrt (m ^ 2 + 4 * e * P)) / (2 * e) = 0 := by
      rcases mul_eq_zero.mp h7 with h | h
      · exact absurd h (by positivity)
      · exact h
    linarith

/-- Witness for input_power_scale_positive_root at the state with resistance
1, total RMS current 2 and total RMS torque 5, at omega 1 and power limit 6:
the source quadratic is 4 k^2 + 5 k - 6 = 0 with nonnegative root 3/4. -/
theorem input_power_scale_positive_root_witness :
    unit_rms_electrical_power ⟨1, 1, 5, 1, 2, 1, 1, 1⟩
          * input_power_scale ⟨1, 1, 5, 1, 2, 1, 1, 1⟩ 1 6 ^ 2
        + unit_rms_mechanical_power ⟨1, 1, 5, 1, 2, 1, 1, 1⟩ 1
          * input_power_scale ⟨1, 1, 5, 1, 2, 1, 1, 1⟩ 1 6 - 6 = 0
    ∧ 0 ≤ input_power_scale ⟨1, 1, 5, 1, 2, 1, 1, 1⟩ 1 6
    ∧ ∀ k, 0 ≤ k →
        unit_rms_electrical_power ⟨1, 1, 5, 1, 2, 1, 1, 1⟩ * k ^ 2
          + unit_rms_mechanical_power ⟨1, 1, 5, 1, 2, 1, 1, 1⟩ 1 * k - 6 = 0 →
        k = input_power_scale ⟨1, 1, 5, 1, 2, 1, 1, 1⟩ 1 6 :=
  input_power_scale_positive_root ⟨1, 1, 5, 1, 2, 1, 1, 1⟩ 1 6
    (by norm_num [unit_rms_electrical_power])
    (by norm_num [unit_rms_mechanical_power])
    (by norm_num)

/-- C3 counterexample: at the same concrete state the source bound is 3/4,
which is NOT a root of the quadratic with the coefficients the claim states
(unit_rms_current^2 * resistance * 3 and unit_average_torque * omega); the
positive root of the claimed quadratic is 1 instead. -/
theorem input_power_scale_spec_counterexample :
    input_power_scale ⟨1, 1, 5, 1, 2, 1, 1, 1⟩ 1 6 = 3 / 4
    ∧ unit_rms_electrical_power_spec ⟨1, 1, 5, 1, 2, 1, 1, 1⟩ * (3 / 4) ^ 2
        + unit_rms_mechanical_power_spec ⟨1, 1, 5, 1, 2, 1, 1, 1⟩ 1 * (3 / 4) - 6 ≠ 0
    ∧ unit_rms_electrical_power_spec ⟨1, 1, 5, 1, 2, 1, 1, 1⟩ * 1 ^ 2
        + unit_rms_mechanical_power_spec ⟨1, 1, 5, 1, 2, 1, 1, 1⟩ 1 * 1 - 6 = 0
    ∧ (0:ℝ) < 1 := by
  refine ⟨?_, ?_, ?_, by norm_num⟩
  · have h121 : ((5:ℝ) * 1) ^ 2 - 4 * (2 ^ 2 * 1) * (-6) = 121 := by norm_num
    show (-((5:ℝ) * 1) + Real.sqrt ((5 * 1) ^ 2 - 4 * (2 ^ 2 * 1) * (-6)))
        / (2 * (2 ^ 2 * 1)) = 3 / 4
    rw [h121, show (121:ℝ) = 11 ^ 2 by norm_num,
        Real.sqrt_sq (by norm_num : (0:ℝ) ≤ 11)]
    norm_num
  · norm_num [unit_rms_electrical_power_spec, unit_rms_mechanical_power_spec]
  · norm_num [unit_rms_electrical_power_spec, unit_rms_mechanical_power_spec]

/-- C5: with omega 0 and max_torque 0 the solver returns the all-zero
operating point: torque, rms motor power, rms input power, rms output power
and average motor power are all exactly 0.  The hypothesis records that the
per-unit average torque is nonzero, so the Python quotient 0 / that value is
an ordinary 0 and not NaN. -/
theorem operating_point_zero_limits (c : SimpleController)
    (h : c.unit_phase_average_torque ≠ 0) :
    SimpleController.operating_point c 0 (some 0) none none none
      = Except.ok ⟨0, 0, 0, 0, 0, 0⟩ := by
  simp [SimpleController.operating_point, base_scale_limits,
        finish_operating_point, listMin, unit_rms_mechanical_power,
        unit_rms_electrical_power]

/-- Witness for operating_point_zero_limits at the all-ones controller
state. -/
theorem operating_point_zero_limits_witness :
    SimpleController.operating_point ⟨1, 1, 1, 1, 1, 1, 1, 1⟩ 0
        (some 0) none none none
      = Except.ok ⟨0, 0, 0, 0, 0, 0⟩ :=
  operating_point_zero_limits ⟨1, 1, 1, 1, 1, 1, 1, 1⟩ one_ne_zero

/-- C6: with max_voltage supplied, operating_point raises exactly when the
back-EMF omega / max_speed exceeds max_voltage; otherwise it proceeds with
the voltage headroom bound (max_voltage - bemf) / unit_voltage appended to
the candidate scale list. -/
theorem operating_point_voltage_gate (c : SimpleController) (omega v : ℝ)
    (mt mc mP : Option ℝ) :
    ((∃ msg, SimpleController.operating_point c omega mt mc mP (some v)
        = Except.error msg) ↔ v < omega / c.max_speed)
    ∧ (omega / c.max_speed ≤ v →
        SimpleController.operating_point c omega mt mc mP (some v)
          = finish_operating_point c omega
              (base_scale_limits c omega mt mc mP
                ++ [(v - omega / c.max_speed) / c.unit_voltage])) := by
  constructor
  · constructor
    · rintro ⟨msg, hmsg⟩
      by_contra hnot
      push_neg at hnot
      simp only [SimpleController.operating_point] at hmsg
      rw [if_pos hnot] at hmsg
      simp only [finish_operating_point] at hmsg
      rw [if_neg (by simp)] at hmsg
      exact Except.noConfusion hmsg
    · intro hlt
      refine ⟨"AssertionError: braking not supported yet", ?_⟩
      simp only [SimpleController.operating_point]
      rw [if_neg (not_le.mpr hlt)]
  · intro hle
    simp only [SimpleController.operating_point]
    rw [if_pos hle]

/-- Witness for operating_point_voltage_gate at the all-ones controller
state, omega 0 and max_voltage 1 (back-EMF 0, no error, bound appended). -/
theorem operating_point_voltage_gate_witness :
    ((∃ msg, SimpleController.operating_point ⟨1, 1, 1, 1, 1, 1, 1, 1⟩ 0
        none none none (some 1) = Except.error msg)
      ↔ (1:ℝ) < 0 / (SimpleController.mk 1 1 1 1 1 1 1 1).max_speed)
    ∧ (0 / (SimpleController.mk 1 1 1 1 1 1 1 1).max_speed ≤ (1:ℝ) →
        SimpleController.operating_point ⟨1, 1, 1, 1, 1, 1, 1, 1⟩ 0
            none none none (some 1)
          = finish_operating_point ⟨1, 1, 1, 1, 1, 1, 1, 1⟩ 0
              (base_scale_limits ⟨1, 1, 1, 1, 1, 1, 1, 1⟩ 0 none none none
                ++ [(1 - 0 / (SimpleController.mk 1 1 1 1 1 1 1 1).max_speed)
                      / (SimpleController.mk 1 1 1 1 1 1 1 1).unit_voltage])) :=
  operating_point_voltage_gate ⟨1, 1, 1, 1, 1, 1, 1, 1⟩ 0 1 none none none

/-- C7 counterexample: specifying a quantity BOTH ways is accepted without
any error.  A Motor built with both resistance forms, both flux forms and
both inductance forms constructs fine, and a CosSum given both phase and
line_line sets constructs fine. -/
theorem both_forms_accepted_counterexample :
    (Motor.init (some 1) (some 4) (some [((1:ℕ), ((1:ℝ), (0:ℝ)))])
        (some [((1:ℕ), ((1:ℝ), (0:ℝ)))]) (some 1) (some 2)).isOk = true
    ∧ (CosSum.init (some [((1:ℕ), ((1:ℝ), (0:ℝ)))])
        (some [((1:ℕ), ((1:ℝ), (0:ℝ)))])).isOk = true := by
  constructor
  · rfl
  · rfl

/-- C7 (amended): construction raises exactly for a quantity specified in
NEITHER form; specifying a quantity in both forms is accepted silently (the
Motor if/elif chain prefers the phase form, and the CosSum line_line branch
overwrites the values derived from phase). -/
theorem construction_error_iff_neither (r1 r2 i1 i2 : ℝ) (p ll : Coeff)
    (vp vl : ℝ × ℝ) (hp : p.lookup 1 = some vp) (hl : ll.lookup 1 = some vl) :
    (Motor.init (some r1) (some r2) (some p) (some ll) (some i1) (some i2)).isOk = true
    ∧ (CosSum.init (some ll) (some p)).isOk = true
    ∧ (∀ a b s1 s2, Motor.init none none a b s1 s2
        = Except.error "Must specify the resistance")
    ∧ Motor.init (some r1) (some r2) (some p) (some ll) none none
        = Except.error "Must specify the inductance"
    ∧ Motor.init (some r1) (some r2) none none (some i1) (some i2)
        = Except.error "Must specify the flux linkage"
    ∧ CosSum.init none none = Except.error "AttributeError: _phase_coeff" := by
  have hop : _offset_coeff p
      = some (p.map (fun q => (q.1, q.2.1, q.2.2 + (-(π / 2) - vp.2)))) := by
    simp [_offset_coeff, hp]
  have holl : _offset_coeff ll
      = some (ll.map (fun q => (q.1, q.2.1, q.2.2 + (-(π / 2) - vl.2)))) := by
    simp [_offset_coeff, hl]
  refine ⟨?_, ?_, fun a b s1 s2 => rfl, rfl, rfl, rfl⟩
  · simp [Motor.init, CosSum.init, hop, Except.map, Except.isOk, Except.toBool]
  · simp [CosSum.init, CosSum.ofLineLine, hop, holl, Except.isOk, Except.toBool]

/-- Witness for construction_error_iff_neither at concrete one-harmonic
coefficient sets. -/
theorem construction_error_iff_neither_witness :
    (Motor.init (some 1) (some 4) (some [((1:ℕ), ((1:ℝ), (0:ℝ)))])
        (some [((1:ℕ), ((2:ℝ), (0:ℝ)))]) (some 1) (some 2)).isOk = true
    ∧ (CosSum.init (some [((1:ℕ), ((2:ℝ), (0:ℝ)))])
        (some [((1:ℕ), ((1:ℝ), (0:ℝ)))])).isOk = true
    ∧ (∀ a b s1 s2, Motor.init none none a b s1 s2
        = Except.error "Must specify the resistance")
    ∧ Motor.init (some 1) (some 4) (some [((1:ℕ), ((1:ℝ), (0:ℝ)))])
        (some [((1:ℕ), ((2:ℝ), (0:ℝ)))]) none none
        = Except.error "Must specify the inductance"
    ∧ Motor.init (some 1) (some 4) none none (some 1) (some 2)
        = Except.error "Must specify the flux linkage"
    ∧ CosSum.init none none = Except.error "AttributeError: _phase_coeff" :=
  construction_error_iff_neither 1 4 1 2 [((1:ℕ), ((1:ℝ), (0:ℝ)))]
    [((1:ℕ), ((2:ℝ), (0:ℝ)))] (1, 0) (2, 0) rfl rfl

/-- C8: converting a coefficient set with a harmonic 1 from phase to
line-to-line and back through CosSum reproduces the canonicalized phase set
exactly: the second phase set equals the first, the first phase set is the
input with every offset shifted so harmonic 1 sits at -pi/2 (amplitudes
untouched), and the line-to-line set is the phase set with every amplitude
multiplied by sqrt(3), offsets shared. -/
theorem cosSum_round_trip (c : Coeff) (v : ℝ × ℝ) (h : c.lookup 1 = some v) :
    ∃ cs1 cs2 : CosSum,
      CosSum.init none (some c) = Except.ok cs1
      ∧ CosSum.init (some cs1.line_line_coeff) none = Except.ok cs2
      ∧ cs2.phase_coeff = cs1.phase_coeff
      ∧ cs2.line_line_coeff = cs1.line_line_coeff
      ∧ cs1.phase_coeff = c.map (fun p => (p.1, p.2.1, p.2.2 + (-(π / 2) - v.2)))
      ∧ cs1.line_line_coeff
          = cs1.phase_coeff.map (fun q => (q.1, q.2.1 * Real.sqrt 3, q.2.2))
      ∧ cs1.phase_coeff.lookup 1 = some (v.1, -(π / 2)) := by
  have hop : _offset_coeff c
      = some (c.map (fun p => (p.1, p.2.1, p.2.2 + (-(π / 2) - v.2)))) := by
    simp [_offset_coeff, h]
  have h1 : CosSum.init none (some c)
      = Except.ok ⟨c.map (fun p => (p.1, p.2.1, p.2.2 + (-(π / 2) - v.2))),
          (c.map (fun p => (p.1, p.2.1, p.2.2 + (-(π / 2) - v.2)))).map
            (fun q => (q.1, q.2.1 * Real.sqrt 3, q.2.2))⟩ := by
    simp [CosSum.init, hop]
  have hlkpc : (c.map (fun p => (p.1, p.2.1, p.2.2 + (-(π / 2) - v.2)))).lookup 1
      = some (v.1, v.2 + (-(π / 2) - v.2)) := by
    rw [lookup_map_shift, h]
    rfl
  have hcan : v.2 + (-(π / 2) - v.2) = -(π / 2) := by ring
  have hlkpc2 : (c.map (fun p => (p.1, p.2.1, p.2.2 + (-(π / 2) - v.2)))).lookup 1
      = some (v.1, -(π / 2)) := by
    rw [hlkpc, hcan]
  have hlkllc : ((c.map (fun p => (p.1, p.2.1, p.2.2 + (-(π / 2) - v.2)))).map
        (fun q => (q.1, q.2.1 * Real.sqrt 3, q.2.2))).lookup 1
      = some (v.1 * Real.sqrt 3, -(π / 2)) := by
    rw [lookup_map_scale, hlkpc2]
    rfl
  have hz : -(π / 2) - -(π / 2) = (0:ℝ) := by ring
  have hofll : _offset_coeff ((c.map (fun p => (p.1, p.2.1, p.2.2 + (-(π / 2) - v.2)))).map
        (fun q => (q.1, q.2.1 * Real.sqrt 3, q.2.2)))
      = some ((c.map (fun p => (p.1, p.2.1, p.2.2 + (-(π / 2) - v.2)))).map
        (fun q => (q.1, q.2.1 * Real.sqrt 3, q.2.2))) := by
    simp only [_offset_coeff, hlkllc, hz, map_shift_zero]
  have hs3 : Real.sqrt 3 ≠ 0 := by positivity
  have hdiv : (((c.map (fun p => (p.1, p.2.1, p.2.2 + (-(π / 2) - v.2)))).map
        (fun q => (q.1, q.2.1 * Real.sqrt 3, q.2.2))).map
        (fun q => (q.1, q.2.1 / Real.sqrt 3, q.2.2)))
      = c.map (fun p => (p.1, p.2.1, p.2.2 + (-(π / 2) - v.2))) := by
    rw [List.map_map]
    have hpt : ∀ q : ℕ × ℝ × ℝ,
        ((fun q : ℕ × ℝ × ℝ => (q.1, q.2.1 / Real.sqrt 3, q.2.2)) ∘
         (fun q : ℕ × ℝ × ℝ => (q.1, q.2.1 * Real.sqrt 3, q.2.2))) q = q := by
      intro q
      obtain ⟨a, b, o⟩ := q
      simp [Function.comp, mul_div_cancel_right₀ _ hs3]
    rw [List.map_congr_left (fun q _ => hpt q)]
    simp
  have h2 : CosSum.init (some ((c.map (fun p => (p.1, p.2.1, p.2.2 + (-(π / 2) - v.2)))).map
        (fun q => (q.1, q.2.1 * Real.sqrt 3, q.2.2)))) none
      = Except.ok ⟨c.map (fun p => (p.1, p.2.1, p.2.2 + (-(π / 2) - v.2))),
          (c.map (fun p => (p.1, p.2.1, p.2.2 + (-(π / 2) - v.2)))).map
            (fun q => (q.1, q.2.1 * Real.sqrt 3, q.2.2))⟩ := by
    simp only [CosSum.init, CosSum.ofLineLine, hofll, hdiv]
  exact ⟨_, _, h1, h2, rfl, rfl, rfl, rfl, hlkpc2⟩

/-- Witness for cosSum_round_trip at the one-harmonic set with amplitude 1
and offset 0. -/
theorem cosSum_round_trip_witness :
    ∃ cs1 cs2 : CosSum,
      CosSum.init none (some [((1:ℕ), ((1:ℝ), (0:ℝ)))]) = Except.ok cs1
      ∧ CosSum.init (some cs1.line_line_coeff) none = Except.ok cs2
      ∧ cs2.phase_coeff = cs1.phase_coeff
      ∧ cs2.line_line_coeff = cs1.line_line_coeff
      ∧ cs1.phase_coeff = [((1:ℕ), ((1:ℝ), (0:ℝ)))].map
          (fun p => (p.1, p.2.1, p.2.2 + (-(π / 2) - (0:ℝ))))
      ∧ cs1.line_line_coeff
          = cs1.phase_coeff.map (fun q => (q.1, q.2.1 * Real.sqrt 3, q.2.2))
      ∧ cs1.phase_coeff.lookup 1 = some ((1:ℝ), -(π / 2)) :=
  cosSum_round_trip [((1:ℕ), ((1:ℝ), (0:ℝ)))] (1, 0) rfl

/-- The bump function never exceeds 1. -/
theorem bump_le_one (theta : ℝ) : bump theta ≤ 1 := by
  have h := Real.neg_one_le_cos theta
  simp only [bump]
  linarith

/-- The bump function attains 1 at pi. -/
theorem bump_pi : bump π = 1 := by
  simp [bump, Real.cos_pi]

/-- listMin over a range-indexed map whose entry at 0 is the value a and
whose every entry is at least a evaluates to a. -/
theorem listMin_map_range_eq (g : ℕ → ℝ) (n : ℕ) (hn : 0 < n) (a : ℝ)
    (h0 : g 0 = a) (h : ∀ i, a ≤ g i) : listMin ((List.range n).map g) = a := by
  rw [listMin_map_range g n hn (by intro i; rw [h0]; exact h i), h0]

/-- The bump function is even. -/
theorem bump_neg (theta : ℝ) : bump (-theta) = bump theta := by
  simp [bump, Real.cos_neg]

/-- The bump function is monotone on the interval from 0 to pi. -/
theorem bump_mono (x y : ℝ) (hx : 0 ≤ x) (hxy : x ≤ y) (hy : y ≤ π) :
    bump x ≤ bump y := by
  have h := Real.cos_le_cos_of_nonneg_of_le_pi hx hy hxy
  simp only [bump]
  linarith

/-- The bump function has period 2 pi. -/
theorem bump_periodic (theta : ℝ) : bump (theta + π * 2) = bump theta := by
  have h : theta + π * 2 = theta + 2 * π := by ring
  simp [bump, h, Real.cos_add_two_pi]

/-- The bump function is symmetric about pi. -/
theorem bump_two_pi_sub (theta : ℝ) : bump (2 * π - theta) = bump theta := by
  simp [bump, Real.cos_two_pi_sub]

/-- On every window the code scans (half a sample step wide on each side of a
sample in the closed circle), bumpOpt converges and returns a point of the
window at which bump attains its maximum over the window: it is a perfect
bounded local maximizer for bump there. -/
theorem bumpOpt_window_max (lo hi x0 : ℝ)
    (h1 : -(π * 2 / 200 / 2) ≤ lo) (h2 : hi = lo + 2 * (π * 2 / 200 / 2))
    (h3 : hi ≤ π * 2 + π * 2 / 200 / 2) :
    ∃ x, bumpOpt lo hi x0 = some x ∧ lo ≤ x ∧ x ≤ hi
      ∧ ∀ y, lo ≤ y → y ≤ hi → bump y ≤ bump x := by
  have hpi : (0:ℝ) < π := Real.pi_pos
  have heps : (0:ℝ) < π * 2 / 200 / 2 := by positivity
  by_cases hb1 : hi ≤ π
  · refine ⟨hi, by simp [bumpOpt, hb1], by linarith, le_refl hi, ?_⟩
    intro y hy1 hy2
    by_cases hy0 : 0 ≤ y
    · exact bump_mono y hi hy0 hy2 hb1
    · push_neg at hy0
      calc bump y = bump (-y) := (bump_neg y).symm
      _ ≤ bump hi := bump_mono (-y) hi (by linarith) (by linarith) hb1
  · by_cases hb2 : π ≤ lo
    · refine ⟨lo, by simp [bumpOpt, hb1, hb2], le_refl lo, by linarith, ?_⟩
      intro y hy1 hy2
      have hlo2 : lo ≤ 2 * π - π * 2 / 200 / 2 := by linarith
      have h2pl : 2 * π - lo ≤ π := by linarith
      rw [(bump_two_pi_sub y).symm, (bump_two_pi_sub lo).symm]
      by_cases hu0 : 0 ≤ 2 * π - y
      · exact bump_mono (2 * π - y) (2 * π - lo) hu0 (by linarith) h2pl
      · push_neg at hu0
        have hswap : bump (2 * π - y) = bump (y - 2 * π) := by
          rw [show (2:ℝ) * π - y = -(y - 2 * π) by ring, bump_neg]
        rw [hswap]
        exact bump_mono (y - 2 * π) (2 * π - lo) (by linarith) (by linarith) h2pl
    · refine ⟨π, by simp [bumpOpt, hb1, hb2], le_of_lt (lt_of_not_le hb2),
        le_of_lt (lt_of_not_le hb1), ?_⟩
      intro y _ _
      rw [bump_pi]
      exact bump_le_one y

/-- The candidate angle a window contributes when the optimizer is bumpOpt:
the fallback never fires because bumpOpt always converges. -/
theorem bumpOpt_candidate (lo hi x0 j : ℝ) :
    (bumpOpt lo hi x0).getD j = if hi ≤ π then hi else if π ≤ lo then lo else π := by
  simp only [bumpOpt]
  split_ifs <;> rfl

/-- What max_circle computes for bump with the perfect optimizer bumpOpt: f
at the numerically smallest candidate angle, which is the candidate of the
first window, pi/200. -/
theorem max_circle_bump_eval :
    max_circle bump bumpOpt (fun _ => 0) = bump (π / 200) := by
  have hpi : (0:ℝ) < π := Real.pi_pos
  simp only [max_circle, bumpOpt_candidate]
  have h0 : (fun (i : ℕ) =>
      if π * 2 * (i : ℝ) / 199 + π * 2 / 200 / 2 ≤ π
      then π * 2 * (i : ℝ) / 199 + π * 2 / 200 / 2
      else if π ≤ π * 2 * (i : ℝ) / 199 - π * 2 / 200 / 2
      then π * 2 * (i : ℝ) / 199 - π * 2 / 200 / 2
      else π) 0 = π * 2 / 200 / 2 := by
    simp only [Nat.cast_zero]
    rw [if_pos (by nlinarith : π * 2 * (0:ℝ) / 199 + π * 2 / 200 / 2 ≤ π)]
    ring
  have hmono : ∀ i : ℕ, π * 2 / 200 / 2 ≤ (fun (i : ℕ) =>
      if π * 2 * (i : ℝ) / 199 + π * 2 / 200 / 2 ≤ π
      then π * 2 * (i : ℝ) / 199 + π * 2 / 200 / 2
      else if π ≤ π * 2 * (i : ℝ) / 199 - π * 2 / 200 / 2
      then π * 2 * (i : ℝ) / 199 - π * 2 / 200 / 2
      else π) i := by
    intro i
    have hth : (0:ℝ) ≤ π * 2 * (i : ℝ) / 199 := by positivity
    have hepspi : π * 2 / 200 / 2 ≤ π := by nlinarith
    simp only []
    split_ifs with hA hB
    · linarith
    · linarith
    · linarith
  rw [listMin_map_range_eq _ 200 (by norm_num) (π * 2 / 200 / 2) h0 hmono,
      show π * 2 / 200 / 2 = π / 200 by ring]

/-- C1: max_circle does NOT return the maximum of f over the circle.  For the
periodic function bump, with bumpOpt a bounded local maximizer that on every
window the code scans converges to an in-window point where bump attains its
window maximum, max_circle still returns bump at the numerically smallest
candidate angle pi/200 (the candidate of the first window), which is below
the true maximum 1 that bump attains at pi inside the half-open circle: the
code takes numpy.nanmin over the candidate ANGLES instead of selecting the
candidate maximizing f. -/
theorem max_circle_returns_min_angle_value :
    (∀ theta, bump (theta + π * 2) = bump theta)
    ∧ (∀ i : ℕ, i < 200 →
        ∃ x, bumpOpt (π * 2 * (i : ℝ) / 199 - π * 2 / 200 / 2)
              (π * 2 * (i : ℝ) / 199 + π * 2 / 200 / 2)
              (π * 2 * (i : ℝ) / 199) = some x
          ∧ π * 2 * (i : ℝ) / 199 - π * 2 / 200 / 2 ≤ x
          ∧ x ≤ π * 2 * (i : ℝ) / 199 + π * 2 / 200 / 2
          ∧ ∀ y, π * 2 * (i : ℝ) / 199 - π * 2 / 200 / 2 ≤ y →
              y ≤ π * 2 * (i : ℝ) / 199 + π * 2 / 200 / 2 → bump y ≤ bump x)
    ∧ max_circle bump bumpOpt (fun _ => 0) = bump (π / 200)
    ∧ bump (π / 200) < 1
    ∧ bump π = 1
    ∧ (∀ theta, bump theta ≤ 1)
    ∧ 0 ≤ π ∧ π < π * 2 := by
  have hpi : (0:ℝ) < π := Real.pi_pos
  refine ⟨bump_periodic, ?_, max_circle_bump_eval, ?_, bump_pi, bump_le_one,
    hpi.le, by linarith⟩
  · intro i hi
    apply bumpOpt_window_max
    · have hth : (0:ℝ) ≤ π * 2 * (i : ℝ) / 199 := by positivity
      linarith
    · ring
    · have hc : (i : ℝ) ≤ 199 := by exact_mod_cast Nat.lt_succ_iff.mp hi
      nlinarith
  · have hcos : 0 < Real.cos (π / 200) :=
      Real.cos_pos_of_mem_Ioo ⟨by linarith, by linarith⟩
    simp only [bump]
    linarith
